import Mathlib

/-!
Shallow embedding of the lyric-tracking core of `src/main.py` of the
Spotify-Floating-Synced-Lyrics repository, together with proofs about it.

Modelling conventions:
* Python `float` is modelled as `ℚ`; every number the core manipulates is an
  exact decimal fraction and no claim under study depends on binary rounding.
* Python `str` is modelled as `String`; the string operations the code uses
  (`lower`, `strip`, `splitlines`, `replace`, substring membership, `\d`)
  are embedded as explicit structurally recursive functions on `List Char`,
  with `\d` read as the ASCII digits and `strip` trimming the ASCII
  whitespace characters.
* The regex `\[(\d+):(\d+\.\d+)\](.*)` used with `re.match` is embedded as a
  deterministic parser: each `\d+` is a maximal digit run followed by a
  mandatory non-digit literal, so the regex never backtracks.
* `sorted` on `(float, str)` pairs is the stable Python sort under the
  lexicographic tuple order; it is embedded as `List.insertionSort pairLE`,
  which computes the same (unique) stable reordering.
* The awaited `fetch_lyrics` call inside `main_loop` is abstracted into a
  per-poll oracle value (the loop is single-threaded and the await returns
  before the loop body continues); `fetch_lyrics` itself is embedded
  separately over an explicit cache and network outcome.
-/

namespace SpotifySync

/-- Numeric value of a run of decimal digits, as `int(...)` computes it. -/
def digitsToNat (ds : List Char) : ℕ :=
  ds.foldl (fun n c => 10 * n + (c.toNat - 48)) 0

/-- Value of the digit run after the decimal point: the fractional part that
`float("s.f")` contributes. -/
def fracVal (ds : List Char) : ℚ :=
  (digitsToNat ds : ℚ) / (10 : ℚ) ^ ds.length

/-- Python `str.strip()` from the left. -/
def dropSpaces (l : List Char) : List Char := l.dropWhile Char.isWhitespace

/-- Python `str.strip()`: whitespace removed from both ends. -/
def pyStrip (l : List Char) : List Char :=
  (dropSpaces (dropSpaces l).reverse).reverse

/-- A regex literal character: consume it or fail. -/
def expectChar (c : Char) : List Char → Option (List Char)
  | [] => none
  | d :: rest => if d = c then some rest else none

/-- The regex atom `(\d+)`: the maximal digit run at this position, which must
be nonempty, and the rest. -/
def digitRun (cs : List Char) : Option (List Char × List Char) :=
  let sp := cs.span Char.isDigit
  if sp.1 = [] then none else some sp

/-- Embedding of `pattern.match(line)` for the compiled regular expression
`\[(\d+):(\d+\.\d+)\](.*)` on the character list of a line, already combined
with line 44 of the source:
`m, s, text = int(g1), float(g2), g3.strip()` and the timestamp
`(m * 60) + s` of line 45. Each `\d+` is the maximal digit run at its
position and is immediately followed by a mandatory non-digit literal, so
this deterministic backtracking-free reading is exactly the regex. -/
def matchChars (cs : List Char) : Option (ℚ × String) :=
  Option.bind (expectChar '[' cs) fun r0 =>
  Option.bind (digitRun r0) fun p1 =>
  Option.bind (expectChar ':' p1.2) fun r2 =>
  Option.bind (digitRun r2) fun p2 =>
  Option.bind (expectChar '.' p2.2) fun r4 =>
  Option.bind (digitRun r4) fun p3 =>
  Option.bind (expectChar ']' p3.2) fun text =>
  some ((digitsToNat p1.1 : ℚ) * 60 + ((digitsToNat p2.1 : ℚ) + fracVal p3.1),
        String.mk (pyStrip text))

/-- Embedding of `pattern.match(line)` on a line. -/
def matchLRC (line : String) : Option (ℚ × String) := matchChars line.data

/-- The language of the anchored regex `\[(\d+):(\d+\.\d+)\](.*)`: the line
decomposes into bracketed nonempty digit runs for minutes, seconds and
fraction, followed by arbitrary text. -/
def LineMatches (line : String) : Prop :=
  ∃ mds sds fds tail : List Char,
    line.data = '[' :: (mds ++ ':' :: (sds ++ '.' :: (fds ++ ']' :: tail))) ∧
    mds ≠ [] ∧ sds ≠ [] ∧ fds ≠ [] ∧
    (∀ c ∈ mds, c.isDigit = true) ∧ (∀ c ∈ sds, c.isDigit = true) ∧
    (∀ c ∈ fds, c.isDigit = true)

/-- Split a character list at every newline. Python `splitlines` additionally
drops a trailing empty line and knows more separators; an empty or
partial-separator line never matches the pattern, so the difference is
invisible to `parse_lrc`. -/
def splitNL : List Char → List (List Char)
  | [] => [[]]
  | '\n' :: rest => [] :: splitNL rest
  | c :: rest =>
    match splitNL rest with
    | [] => [[c]]
    | l :: ls => (c :: l) :: ls

/-- Embedding of `lrc_text.splitlines()`. -/
def pySplitlines (s : String) : List String := (splitNL s.data).map String.mk

/-- The `lyrics_data` list built by the loop of `parse_lrc` (lines 41-45):
one entry per matching line, in input order. -/
def lrcMatches (lrc_text : String) : List (ℚ × String) :=
  (pySplitlines lrc_text).filterMap matchLRC

/-- Python string `<=`: lexicographic comparison of code points. -/
def charListLE : List Char → List Char → Bool
  | [], _ => true
  | _ :: _, [] => false
  | c :: cs, d :: ds => if c = d then charListLE cs ds else decide (c < d)

/-- The order `sorted(lyrics_data)` sorts by: Python compares the
`(timestamp, text)` tuples lexicographically. -/
def pairLE (p q : ℚ × String) : Prop :=
  p.1 < q.1 ∨ (p.1 = q.1 ∧ charListLE p.2.data q.2.data = true)

instance : DecidableRel pairLE := fun p q => by unfold pairLE; infer_instance

/-- Embedding of `parse_lrc` (lines 37-46): collect the matches, then
`sorted(lyrics_data)`. The sort of Python is the stable sort under the tuple
order, embedded as insertion sort under `pairLE` (stable sorts of a list
under a total preorder agree). -/
def parse_lrc (lrc_text : String) : List (ℚ × String) :=
  List.insertionSort pairLE (lrcMatches lrc_text)

/-- CPython `bisect.bisect_right(a, x, lo, hi)`: binary search for the
upper-bound insertion point of `x` in `a[lo:hi]`. -/
def bisectRightAux (a : List ℚ) (x : ℚ) (lo hi : ℕ) : ℕ :=
  if h : lo < hi then
    let mid := (lo + hi) / 2
    if x < a.getD mid 0 then bisectRightAux a x lo mid
    else bisectRightAux a x (mid + 1) hi
  else lo
termination_by hi - lo
decreasing_by
  · omega
  · omega

/-- Embedding of `bisect.bisect_right(ts_list, true_pos)` (line 92). -/
def bisect_right (a : List ℚ) (x : ℚ) : ℕ := bisectRightAux a x 0 a.length

/-- Lines 92-93:
`idx = bisect.bisect_right(ts_list, true_pos)` and
`new_lyric = parsed_lyrics[idx-1][1] if idx > 0 else "..."`.
The Python subscript raises when `idx - 1` is out of range; it is embedded
with a default, and the invariant proof for the loop shows the index is in
range whenever the loop reaches this code. -/
def lookupLyric (parsed_lyrics : List (ℚ × String)) (ts_list : List ℚ)
    (true_pos : ℚ) : String :=
  let idx := bisect_right ts_list true_pos
  if 0 < idx then (parsed_lyrics.getD (idx - 1) (0, "")).2 else "..."

/-- The active-line lookup over a document, indexing it by its own timestamps
(`ts_list = [x[0] for x in parsed_lyrics]`, line 85). -/
def activeLine (doc : List (ℚ × String)) (pos : ℚ) : String :=
  lookupLyric doc (doc.map Prod.fst) pos

/-- Embedding of `str.lower()` (ASCII reading, which covers every concrete
string the program compares with it). -/
def pyLower (s : String) : String := String.mk (s.data.map Char.toLower)

/-- Does `pat` occur at the head of `s`? -/
def headMatches : List Char → List Char → Bool
  | _, [] => true
  | [], _ :: _ => false
  | c :: cs, d :: ds => c = d && headMatches cs ds

/-- Python substring membership `pat in s`. -/
def hasSubstr : List Char → List Char → Bool
  | [], pat => headMatches [] pat
  | s@(_ :: rest), pat => headMatches s pat || hasSubstr rest pat

/-- The fields of a media session that `main_loop` reads in one poll. -/
structure Session where
  source_app_user_model_id : String
  title : String
  artist : String
  album_title : String
  end_time : ℚ
  position : ℚ
  last_updated_time : ℚ
  playback_status : ℕ
deriving DecidableEq

/-- The loop-local mutable variables of `main_loop` (lines 60-61). -/
structure WorkerState where
  last_id : String
  parsed_lyrics : List (ℚ × String)
  ts_list : List ℚ
  curr_text : String
  is_fetching : Bool
deriving DecidableEq

/-- Initial state: `last_id, parsed_lyrics, ts_list = "", [], []` and
`curr_text, is_fetching = "", False` (lines 60-61). -/
def initState : WorkerState :=
  { last_id := "", parsed_lyrics := [], ts_list := [], curr_text := "",
    is_fetching := false }

/-- The external observations of one poll: the current session (if any), the wall
clock at line 90, and the value the awaited `fetch_lyrics` call of line 83
returns if this poll fetches. -/
structure TickInput where
  session : Option Session
  now : ℚ
  fetchResult : Option String

/-- Embedding of `song_id = f"{props.title}-{props.artist}"` (line 78). -/
def songId (s : Session) : String := s.title ++ "-" ++ s.artist

/-- Lines 80-86, the track-change / fetch step: `raw` is the value the awaited
`fetch_lyrics` call returns; the state recorded is the one after line 86 (the
`is_fetching` flag raised on line 81 is lowered again on line 86 before any
further read of the state, the loop being single-threaded). -/
def fetchStep (st : WorkerState) (sess : Session) (raw : Option String) :
    WorkerState × List String :=
  if songId sess ≠ st.last_id ∧ st.is_fetching = false then
    let parsed :=
      match raw with
      | some r => if r = "" then [] else parse_lrc r
      | none => []
    ({ last_id := songId sess, parsed_lyrics := parsed,
       ts_list := parsed.map Prod.fst, curr_text := "", is_fetching := false },
     ["Searching..."])
  else (st, [])

/-- Lines 90-91: `time_diff = (now - last_updated).total_seconds()`;
`true_pos = timeline.position.total_seconds() + time_diff`. -/
def estimatedPosition (position last_updated now : ℚ) : ℚ :=
  let time_diff := now - last_updated
  position + time_diff

/-- Lines 88-96, the playback / position check. -/
def positionCheck (st : WorkerState) (sess : Session) (now : ℚ) :
    WorkerState × List String :=
  if sess.playback_status = 4 then
    let time_diff := now - sess.last_updated_time
    let true_pos := sess.position + time_diff
    let idx := bisect_right st.ts_list true_pos
    let new_lyric :=
      if 0 < idx then (st.parsed_lyrics.getD (idx - 1) (0, "")).2 else "..."
    if new_lyric ≠ st.curr_text then
      ({ st with curr_text := new_lyric }, [new_lyric])
    else (st, [])
  else (st, [])

/-- One iteration of the `while True` body (lines 63-102), as a function from
the previous state and the observations of this poll to the next state and the list
of `lyric_changed` emissions of the iteration, in order. -/
def tick (st : WorkerState) (inp : TickInput) : WorkerState × List String :=
  match inp.session with
  | some sess =>
    if hasSubstr (pyLower sess.source_app_user_model_id).data "spotify".data = false then
      let pair :=
        if st.curr_text ≠ "Not Spotify" then (("Not Spotify" : String), ["Not Spotify"])
        else (st.curr_text, ([] : List String))
      ({ st with curr_text := pair.1, last_id := "", parsed_lyrics := [] }, pair.2)
    else
      let s1 := fetchStep st sess inp.fetchResult
      let s2 := positionCheck s1.1 sess inp.now
      (s2.1, s1.2 ++ s2.2)
  | none =>
    let pair :=
      if st.curr_text ≠ "Waiting for Spotify..." then
        (("Waiting for Spotify..." : String), ["Waiting for Spotify..."])
      else (st.curr_text, ([] : List String))
    ({ st with curr_text := pair.1, last_id := "",
               parsed_lyrics := [], ts_list := [] },
     pair.2)

/-- The states the variables of `main_loop` can be in when an iteration starts. -/
inductive Reachable : WorkerState → Prop
  | init : Reachable initState
  | step (st : WorkerState) (inp : TickInput) :
      Reachable st → Reachable (tick st inp).1

/-- The contents of the cache directory: filename to file text. -/
abbrev Cache := List (String × String)

/-- Embedding of `filename = f"{artist}_{title}".replace(" ", "_").lower() + ".lrc"`
(line 15; `os.path.join` with the fixed directory is dropped, keys being
compared within the one directory). -/
def cacheFilename (artist title : String) : String :=
  pyLower (String.mk ((artist ++ "_" ++ title).data.map
    (fun c => if c = ' ' then '_' else c))) ++ ".lrc"

/-- Embedding of `os.path.exists` plus the read of lines 18-20. -/
def lookupCache : Cache → String → Option String
  | [], _ => none
  | (k, v) :: rest, key => if k = key then some v else lookupCache rest key

/-- The distinguishable outcomes of the network attempt of lines 24-34: either
the request (or the body read) raises - network error and timeout included -
or a response arrives with a status code and, when present, the
`syncedLyrics` field of the JSON body. -/
inductive NetOutcome where
  | raised
  | response (status : ℕ) (syncedLyrics : Option String)

/-- Embedding of `fetch_lyrics` (lines 13-35): cache check first, then the
network attempt,
returning the lyric text (`None` on any failure, the bare `except` of line 34
absorbing every exception of the `try` body) together with the cache as left
on disk. -/
def fetch_lyrics (cache : Cache) (artist title : String) (net : NetOutcome) :
    Option String × Cache :=
  match lookupCache cache (cacheFilename artist title) with
  | some contents => (some contents, cache)
  | none =>
    match net with
    | .raised => (none, cache)
    | .response status lyr =>
      if status = 200 then
        match lyr with
        | some lyrics =>
          if lyrics = "" then (none, cache)
          else (some lyrics, (cacheFilename artist title, lyrics) :: cache)
        | none => (none, cache)
      else (none, cache)

/-- The fetch outcomes claim C5 ranges over: network error or timeout (the
request raises), a non-200 status, or a missing or empty `syncedLyrics`
field. -/
def FetchFailure : NetOutcome → Prop
  | .raised => True
  | .response status lyr => status ≠ 200 ∨ lyr = none ∨ lyr = some ""

/-!
## Proofs
-/

/-- Unfolding equation for one step of the binary search. -/
theorem bisectRightAux_step (a : List ℚ) (x : ℚ) (lo hi : ℕ) :
    bisectRightAux a x lo hi =
      if lo < hi then
        (if x < a.getD ((lo + hi) / 2) 0 then bisectRightAux a x lo ((lo + hi) / 2)
         else bisectRightAux a x ((lo + hi) / 2 + 1) hi)
      else lo := by
  rw [bisectRightAux]
  split
  · simp only [if_pos (by assumption)]
  · simp only [if_neg (by assumption)]

/-- The search of `bisectRightAux` narrows `[lo, hi)` keeping everything to
the left at most `x` and everything to the right above `x`. -/
theorem bisectRightAux_spec (a : List ℚ) (x : ℚ)
    (hmono : ∀ i j : ℕ, i ≤ j → j < a.length → a.getD i 0 ≤ a.getD j 0) :
    ∀ n lo hi, hi - lo ≤ n → lo ≤ hi → hi ≤ a.length →
      (∀ i, i < lo → a.getD i 0 ≤ x) →
      (∀ i, hi ≤ i → i < a.length → x < a.getD i 0) →
      lo ≤ bisectRightAux a x lo hi ∧ bisectRightAux a x lo hi ≤ hi ∧
      (∀ i, i < bisectRightAux a x lo hi → a.getD i 0 ≤ x) ∧
      (∀ i, bisectRightAux a x lo hi ≤ i → i < a.length → x < a.getD i 0) := by
  intro n
  induction n with
  | zero =>
    intro lo hi hn hlohi hhi hlow hhigh
    have heq : lo = hi := by omega
    subst heq
    rw [bisectRightAux_step]
    simp only [lt_irrefl, if_false]
    exact ⟨le_refl _, le_refl _, hlow, hhigh⟩
  | succ n ih =>
    intro lo hi hn hlohi hhi hlow hhigh
    rw [bisectRightAux_step]
    by_cases h : lo < hi
    · simp only [h, if_true]
      have hmlo : lo ≤ (lo + hi) / 2 := by omega
      have hmhi : (lo + hi) / 2 < hi := by omega
      by_cases hx : x < a.getD ((lo + hi) / 2) 0
      · simp only [hx, if_true]
        have hrec := ih lo ((lo + hi) / 2) (by omega) (by omega) (by omega) hlow
          (fun i hi1 hi2 => lt_of_lt_of_le hx (hmono _ i hi1 hi2))
        exact ⟨hrec.1, le_trans hrec.2.1 (le_of_lt hmhi), hrec.2.2.1, hrec.2.2.2⟩
      · simp only [hx, if_false]
        push_neg at hx
        have hrec := ih ((lo + hi) / 2 + 1) hi (by omega) (by omega) hhi
          (fun i hi1 => le_trans (hmono i ((lo + hi) / 2) (by omega) (by omega)) hx)
          hhigh
        exact ⟨le_trans (by omega) hrec.1, hrec.2.1, hrec.2.2.1, hrec.2.2.2⟩
    · simp only [h, if_false]
      have heq : lo = hi := by omega
      subst heq
      exact ⟨le_refl _, le_refl _, hlow, hhigh⟩

/-- Upper-bound specification of `bisect_right` on a non-decreasing list:
everything strictly below the returned index is at most `x`, everything from
the index on is strictly above `x`. -/
theorem bisect_right_spec (a : List ℚ) (x : ℚ)
    (hmono : ∀ i j : ℕ, i ≤ j → j < a.length → a.getD i 0 ≤ a.getD j 0) :
    bisect_right a x ≤ a.length ∧
    (∀ i, i < bisect_right a x → a.getD i 0 ≤ x) ∧
    (∀ i, bisect_right a x ≤ i → i < a.length → x < a.getD i 0) := by
  have h := bisectRightAux_spec a x hmono a.length 0 a.length (by omega)
    (Nat.zero_le _) (le_refl _)
    (fun i hi => absurd hi (Nat.not_lt_zero i))
    (fun i hi1 hi2 => absurd (lt_of_le_of_lt hi1 hi2) (lt_irrefl _))
  exact ⟨h.2.1, h.2.2.1, h.2.2.2⟩

/-- The timestamp column of a document, read through `getD`. -/
theorem getD_map_fst (doc : List (ℚ × String)) (i : ℕ) (h : i < doc.length) :
    (doc.map Prod.fst).getD i 0 = (doc.get ⟨i, h⟩).1 := by
  rw [List.getD_eq_getElem _ _ (by simpa using h), List.getElem_map,
    List.get_eq_getElem]

/-- A document sorted non-decreasingly by timestamp has a monotone timestamp
column. -/
theorem map_fst_mono (doc : List (ℚ × String))
    (hs : doc.Pairwise (fun p q => p.1 ≤ q.1)) :
    ∀ i j : ℕ, i ≤ j → j < (doc.map Prod.fst).length →
      (doc.map Prod.fst).getD i 0 ≤ (doc.map Prod.fst).getD j 0 := by
  intro i j hij hj
  rw [List.length_map] at hj
  have hi : i < doc.length := lt_of_le_of_lt hij hj
  rw [getD_map_fst doc i hi, getD_map_fst doc j hj]
  rcases eq_or_lt_of_le hij with rfl | hlt
  · exact le_refl _
  · exact List.pairwise_iff_get.mp hs ⟨i, hi⟩ ⟨j, hj⟩ hlt

/-- Claim C1: over a document sorted non-decreasingly by timestamp, the lookup of
lines 92-93 returns the text of an entry whose timestamp is at most the
queried position and at least the timestamp of every qualifying entry, i.e.
of the entry with the greatest timestamp at most the position; when no entry
qualifies (in particular on the empty document) it returns the sentinel. -/
theorem activeLine_greatest_le (doc : List (ℚ × String)) (pos : ℚ)
    (hs : doc.Pairwise (fun p q => p.1 ≤ q.1)) :
    ((∀ p ∈ doc, pos < p.1) → activeLine doc pos = "...") ∧
    ((∃ p ∈ doc, p.1 ≤ pos) →
      ∃ i, ∃ h : i < doc.length,
        activeLine doc pos = (doc.get ⟨i, h⟩).2 ∧
        (doc.get ⟨i, h⟩).1 ≤ pos ∧
        ∀ q ∈ doc, q.1 ≤ pos → q.1 ≤ (doc.get ⟨i, h⟩).1) := by
  have hspec := bisect_right_spec (doc.map Prod.fst) pos (map_fst_mono doc hs)
  rw [List.length_map] at hspec
  set r := bisect_right (doc.map Prod.fst) pos with hr
  constructor
  · intro hall
    have hr0 : r = 0 := by
      by_contra hne
      have h0 : (0 : ℕ) < r := Nat.pos_of_ne_zero hne
      have hd : 0 < doc.length := lt_of_lt_of_le h0 hspec.1
      have hle := hspec.2.1 0 h0
      rw [getD_map_fst doc 0 hd] at hle
      exact absurd hle (not_le.mpr (hall _ (List.get_mem doc 0 hd)))
    unfold activeLine lookupLyric
    rw [← hr, hr0]
    simp
  · rintro ⟨p, hp, hple⟩
    have hr0 : 0 < r := by
      by_contra hne
      push_neg at hne
      obtain ⟨n, hn⟩ := List.mem_iff_get.mp hp
      have := hspec.2.2 n.1 (by omega) n.2
      rw [getD_map_fst doc n.1 n.2] at this
      simp only [Fin.eta] at this
      rw [hn] at this
      exact absurd hple (not_le.mpr this)
    have hrlen : r - 1 < doc.length := by
      have := hspec.1
      omega
    refine ⟨r - 1, hrlen, ?_, ?_, ?_⟩
    · unfold activeLine lookupLyric
      rw [← hr]
      simp only [hr0, if_pos]
      rw [List.getD_eq_getElem _ _ hrlen, List.get_eq_getElem]
    · have := hspec.2.1 (r - 1) (by omega)
      rwa [getD_map_fst doc (r - 1) hrlen] at this
    · intro q hq hqle
      obtain ⟨n, hn⟩ := List.mem_iff_get.mp hq
      by_cases hnr : n.1 < r
      · have : (doc.get n).1 ≤ (doc.get ⟨r - 1, hrlen⟩).1 := by
          rcases eq_or_lt_of_le (Nat.le_sub_one_of_lt (Nat.lt_of_lt_of_le hnr (le_refl _))) with heq | hlt
          · have : n = (⟨r - 1, hrlen⟩ : Fin doc.length) := Fin.ext heq
            rw [this]
          · exact List.pairwise_iff_get.mp hs n ⟨r - 1, hrlen⟩ hlt
        rw [hn] at this
        exact this
      · push_neg at hnr
        have := hspec.2.2 n.1 hnr n.2
        rw [getD_map_fst doc n.1 n.2] at this
        simp only [Fin.eta] at this
        rw [hn] at this
        exact absurd hqle (not_le.mpr this)

/-- Claim C1 witness: property 4 of the specification on its sample document,
queried before the first entry. -/
theorem activeLine_greatest_le_witness :
    activeLine [((0 : ℚ), "A"), ((21 : ℚ) / 2, "B"), ((20 : ℚ), "C")] (-1) = "..." := by
  have h := activeLine_greatest_le
    [((0 : ℚ), "A"), ((21 : ℚ) / 2, "B"), ((20 : ℚ), "C")] (-1)
    (by norm_num [List.pairwise_cons])
  exact h.1 (by norm_num)

/-- Lexicographic comparison of code-point lists is total. -/
theorem charListLE_total : ∀ a b : List Char,
    charListLE a b = true ∨ charListLE b a = true := by
  intro a
  induction a with
  | nil => intro b; left; rfl
  | cons c cs ih =>
    intro b
    cases b with
    | nil => right; rfl
    | cons d ds =>
      by_cases h : c = d
      · subst h
        simpa only [charListLE, if_pos rfl] using ih ds
      · rcases lt_trichotomy c d with hlt | heq | hgt
        · left
          simp [charListLE, h, hlt]
        · exact absurd heq h
        · right
          simp [charListLE, Ne.symm h, hgt, not_lt_of_gt hgt]

/-- Lexicographic comparison of code-point lists is transitive. -/
theorem charListLE_trans : ∀ a b c : List Char,
    charListLE a b = true → charListLE b c = true → charListLE a c = true := by
  intro a
  induction a with
  | nil => intro b c _ _; rfl
  | cons x xs ih =>
    intro b c hab hbc
    cases b with
    | nil => simp [charListLE] at hab
    | cons y ys =>
      cases c with
      | nil => simp [charListLE] at hbc
      | cons z zs =>
        by_cases hxy : x = y
        · subst hxy
          rw [charListLE, if_pos rfl] at hab
          by_cases hyz : x = z
          · subst hyz
            rw [charListLE, if_pos rfl] at hbc ⊢
            exact ih ys zs hab hbc
          · rw [charListLE, if_neg hyz] at hbc ⊢
            exact hbc
        · rw [charListLE, if_neg hxy] at hab
          have hxylt : x < y := of_decide_eq_true hab
          by_cases hyz : y = z
          · have hxz : x ≠ z := fun h => hxy (h.trans hyz.symm)
            rw [charListLE, if_neg hxz]
            exact decide_eq_true (hyz ▸ hxylt)
          · rw [charListLE, if_neg hyz] at hbc
            have hyzlt : y < z := of_decide_eq_true hbc
            have hxzlt : x < z := lt_trans hxylt hyzlt
            rw [charListLE, if_neg (ne_of_lt hxzlt)]
            exact decide_eq_true hxzlt

instance : IsTotal (ℚ × String) pairLE := by
  constructor
  intro p q
  rcases lt_trichotomy p.1 q.1 with hlt | heq | hgt
  · exact Or.inl (Or.inl hlt)
  · rcases charListLE_total p.2.data q.2.data with h | h
    · exact Or.inl (Or.inr ⟨heq, h⟩)
    · exact Or.inr (Or.inr ⟨heq.symm, h⟩)
  · exact Or.inr (Or.inl hgt)

instance : IsTrans (ℚ × String) pairLE := by
  constructor
  rintro a b c (hab | ⟨hab, hab2⟩) (hbc | ⟨hbc, hbc2⟩)
  · exact Or.inl (lt_trans hab hbc)
  · exact Or.inl (hbc ▸ hab)
  · exact Or.inl (hab ▸ hbc)
  · exact Or.inr ⟨hab.trans hbc, charListLE_trans _ _ _ hab2 hbc2⟩

/-- Claim C2 amended: `parse_lrc` returns a permutation of the matched entries that
is sorted non-decreasingly by timestamp, but ties among equal timestamps are
ordered by ascending lexicographic comparison of the text (Python compares
the whole `(timestamp, text)` tuples), not by original input-line order. -/
theorem parse_lrc_sorted_perm (t : String) :
    List.Perm (parse_lrc t) (lrcMatches t) ∧
    (parse_lrc t).Pairwise pairLE ∧
    (parse_lrc t).Pairwise (fun p q => p.1 ≤ q.1) := by
  refine ⟨List.perm_insertionSort _ _, List.sorted_insertionSort _ _, ?_⟩
  exact (List.sorted_insertionSort pairLE (lrcMatches t)).imp
    (fun h => h.elim le_of_lt (fun h2 => le_of_eq h2.1))

/-- Claim C2 amended, witness at a concrete input. -/
theorem parse_lrc_sorted_perm_witness :
    (parse_lrc "[0:1.5]x\n[0:0.5]y").Pairwise (fun p q => p.1 ≤ q.1) :=
  (parse_lrc_sorted_perm "[0:1.5]x\n[0:0.5]y").2.2

/-- Evaluation helper: the matched entries of the tie input, in input order. -/
theorem lrcMatches_tie :
    lrcMatches "[0:0.0]b\n[0:0.0]a" = [((0 : ℚ), "b"), ((0 : ℚ), "a")] := by
  have h : lrcMatches "[0:0.0]b\n[0:0.0]a" =
      [((digitsToNat ['0'] : ℚ) * 60 + ((digitsToNat ['0'] : ℚ) + fracVal ['0']), "b"),
       ((digitsToNat ['0'] : ℚ) * 60 + ((digitsToNat ['0'] : ℚ) + fracVal ['0']), "a")] := rfl
  have h0 : digitsToNat ['0'] = 0 := rfl
  rw [h, h0]
  norm_num [fracVal, h0]

/-- Claim C2 counterexample: on the input whose two lines carry the same timestamp
with texts "b" then "a", the matched entries appear in input order
`[(0, "b"), (0, "a")]`, yet `parse_lrc` returns `[(0, "a"), (0, "b")]`: the
original order among equal timestamps is not preserved. -/
theorem parse_lrc_not_stable_by_timestamp :
    lrcMatches "[0:0.0]b\n[0:0.0]a" = [((0 : ℚ), "b"), ((0 : ℚ), "a")] ∧
    parse_lrc "[0:0.0]b\n[0:0.0]a" = [((0 : ℚ), "a"), ((0 : ℚ), "b")] := by
  refine ⟨lrcMatches_tie, ?_⟩
  have h : parse_lrc "[0:0.0]b\n[0:0.0]a" =
      List.insertionSort pairLE (lrcMatches "[0:0.0]b\n[0:0.0]a") := rfl
  rw [h, lrcMatches_tie]
  have hle : pairLE ((0 : ℚ), "b") ((0 : ℚ), "a") = False := by
    simp only [pairLE, eq_self_iff_true, true_and, lt_irrefl, false_or]
    have : charListLE "b".data "a".data = false := by decide
    simp [this]
  simp [List.insertionSort, List.orderedInsert, hle]

/-- A maximal digit run followed by a non-digit is what `takeWhile` and
`dropWhile` split off. -/
theorem take_drop_run (ds : List Char) (c : Char) (r : List Char)
    (hds : ∀ d ∈ ds, d.isDigit = true) (hc : c.isDigit = false) :
    (ds ++ c :: r).takeWhile Char.isDigit = ds ∧
    (ds ++ c :: r).dropWhile Char.isDigit = c :: r := by
  induction ds with
  | nil =>
    simp [List.takeWhile_cons, List.dropWhile_cons, hc]
  | cons d ds ih =>
    have hd : d.isDigit = true := hds d (List.mem_cons_self d ds)
    have hrec := ih (fun e he => hds e (List.mem_cons_of_mem d he))
    simp [List.takeWhile_cons, List.dropWhile_cons, hd, hrec.1, hrec.2]

/-- The function `span` on a maximal digit run followed by a non-digit. -/
theorem span_run (ds : List Char) (c : Char) (r : List Char)
    (hds : ∀ d ∈ ds, d.isDigit = true) (hc : c.isDigit = false) :
    (ds ++ c :: r).span Char.isDigit = (ds, c :: r) := by
  rw [List.span_eq_take_drop]
  have h := take_drop_run ds c r hds hc
  rw [h.1, h.2]

/-- The stage `expectChar` consumes exactly its literal. -/
theorem expectChar_cons (c : Char) (r : List Char) :
    expectChar c (c :: r) = some r := by
  simp [expectChar]

/-- The stage `expectChar` succeeds only on its literal. -/
theorem expectChar_eq_some (c : Char) (cs r : List Char)
    (h : expectChar c cs = some r) : cs = c :: r := by
  cases cs with
  | nil => simp [expectChar] at h
  | cons d rest =>
    rw [expectChar] at h
    by_cases hdc : d = c
    · rw [if_pos hdc] at h
      rw [hdc, Option.some.inj h]
    · rw [if_neg hdc] at h
      exact absurd h (by simp)

/-- The stage `digitRun` consumes exactly a maximal nonempty digit run. -/
theorem digitRun_append (ds : List Char) (c : Char) (r : List Char)
    (hds : ∀ d ∈ ds, d.isDigit = true) (hne : ds ≠ []) (hc : c.isDigit = false) :
    digitRun (ds ++ c :: r) = some (ds, c :: r) := by
  unfold digitRun
  rw [span_run ds c r hds hc]
  simp [hne]

/-- What a successful `digitRun` tells about its input. -/
theorem digitRun_eq_some (cs : List Char) (p : List Char × List Char)
    (h : digitRun cs = some p) :
    cs = p.1 ++ p.2 ∧ p.1 ≠ [] ∧ ∀ c ∈ p.1, c.isDigit = true := by
  unfold digitRun at h
  by_cases hn : (cs.span Char.isDigit).1 = []
  · rw [if_pos hn] at h
    exact absurd h (by simp)
  · rw [if_neg hn] at h
    have hp : (cs.span Char.isDigit) = p := Option.some.inj h
    subst hp
    refine ⟨?_, hn, ?_⟩
    · rw [List.span_eq_take_drop]
      exact (List.takeWhile_append_dropWhile _ _).symm
    · intro c hc
      rw [List.span_eq_take_drop] at hc
      exact List.mem_takeWhile_imp hc

/-- Soundness of the embedded regex: a line shaped like the pattern matches,
with the timestamp `minutes * 60 + seconds.fraction` and the stripped text. -/
theorem matchChars_sound (mds sds fds tail : List Char)
    (h1 : mds ≠ []) (h2 : sds ≠ []) (h3 : fds ≠ [])
    (d1 : ∀ c ∈ mds, c.isDigit = true) (d2 : ∀ c ∈ sds, c.isDigit = true)
    (d3 : ∀ c ∈ fds, c.isDigit = true) :
    matchChars ('[' :: (mds ++ ':' :: (sds ++ '.' :: (fds ++ ']' :: tail)))) =
      some ((digitsToNat mds : ℚ) * 60 + ((digitsToNat sds : ℚ) + fracVal fds),
            String.mk (pyStrip tail)) := by
  rw [matchChars, expectChar_cons,
    Option.some_bind, digitRun_append mds ':' _ d1 h1 (by decide),
    Option.some_bind, expectChar_cons,
    Option.some_bind, digitRun_append sds '.' _ d2 h2 (by decide),
    Option.some_bind, expectChar_cons,
    Option.some_bind, digitRun_append fds ']' tail d3 h3 (by decide),
    Option.some_bind, expectChar_cons, Option.some_bind]

/-- Completeness of the embedded regex: a line it accepts decomposes as the
pattern prescribes. -/
theorem matchChars_complete (line : String) (v : ℚ × String)
    (h : matchLRC line = some v) : LineMatches line := by
  unfold matchLRC matchChars at h
  rw [Option.bind_eq_some] at h
  obtain ⟨r0, he0, h⟩ := h
  rw [Option.bind_eq_some] at h
  obtain ⟨p1, hd1, h⟩ := h
  rw [Option.bind_eq_some] at h
  obtain ⟨r2, he1, h⟩ := h
  rw [Option.bind_eq_some] at h
  obtain ⟨p2, hd2, h⟩ := h
  rw [Option.bind_eq_some] at h
  obtain ⟨r4, he2, h⟩ := h
  rw [Option.bind_eq_some] at h
  obtain ⟨p3, hd3, h⟩ := h
  rw [Option.bind_eq_some] at h
  obtain ⟨text, he3, _⟩ := h
  obtain ⟨hq1, hn1, hdig1⟩ := digitRun_eq_some _ _ hd1
  obtain ⟨hq2, hn2, hdig2⟩ := digitRun_eq_some _ _ hd2
  obtain ⟨hq3, hn3, hdig3⟩ := digitRun_eq_some _ _ hd3
  refine ⟨p1.1, p2.1, p3.1, text, ?_, hn1, hn2, hn3, hdig1, hdig2, hdig3⟩
  rw [expectChar_eq_some _ _ _ he0, hq1, expectChar_eq_some _ _ _ he1, hq2,
    expectChar_eq_some _ _ _ he2, hq3, expectChar_eq_some _ _ _ he3]

/-- Claim C8: `parse_lrc` produces exactly one entry per matching line - with
timestamp `minutes * 60 + seconds.fraction` and the text stripped of
surrounding whitespace - as a permutation of the list of per-line matches;
every non-matching line contributes nothing, the function is total (no error
is ever raised: it is a plain function into documents), and an input with no
matching line yields the empty document. -/
theorem parse_lrc_characterization (t : String) :
    List.Perm (parse_lrc t) (lrcMatches t) ∧
    (∀ line : String, ∀ mds sds fds tail : List Char,
      line.data = '[' :: (mds ++ ':' :: (sds ++ '.' :: (fds ++ ']' :: tail))) →
      mds ≠ [] → sds ≠ [] → fds ≠ [] →
      (∀ c ∈ mds, c.isDigit = true) → (∀ c ∈ sds, c.isDigit = true) →
      (∀ c ∈ fds, c.isDigit = true) →
      matchLRC line =
        some ((digitsToNat mds : ℚ) * 60 + ((digitsToNat sds : ℚ) + fracVal fds),
              String.mk (pyStrip tail))) ∧
    (∀ line : String, ¬ LineMatches line → matchLRC line = none) ∧
    ((∀ line ∈ pySplitlines t, matchLRC line = none) → parse_lrc t = []) := by
  refine ⟨List.perm_insertionSort _ _, ?_, ?_, ?_⟩
  · intro line mds sds fds tail hdata hm hs hf dm dsd df
    unfold matchLRC
    rw [hdata]
    exact matchChars_sound mds sds fds tail hm hs hf dm dsd df
  · intro line hnot
    cases hm : matchLRC line with
    | none => rfl
    | some v => exact absurd (matchChars_complete line v hm) hnot
  · intro hall
    have hnil : lrcMatches t = [] := by
      unfold lrcMatches
      exact List.filterMap_eq_nil_iff.mpr hall
    unfold parse_lrc
    rw [hnil]
    rfl

/-- Claim C8 witness: the matching line of a concrete two-line input is parsed
to its timestamp and stripped text. -/
theorem parse_lrc_characterization_witness :
    matchLRC "[01:23.45] Hello " = some ((8345 : ℚ) / 100, "Hello") := by
  have h := (parse_lrc_characterization "").2.1 "[01:23.45] Hello "
    ['0', '1'] ['2', '3'] ['4', '5'] [' ', 'H', 'e', 'l', 'l', 'o', ' ']
    rfl (by decide) (by decide) (by decide) (by decide) (by decide) (by decide)
  rw [h]
  have h1 : digitsToNat ['0', '1'] = 1 := rfl
  have h2 : digitsToNat ['2', '3'] = 23 := rfl
  have h3 : fracVal ['4', '5'] = 45 / 100 := by
    have : digitsToNat ['4', '5'] = 45 := rfl
    unfold fracVal
    rw [this]
    norm_num
  have h4 : String.mk (pyStrip [' ', 'H', 'e', 'l', 'l', 'o', ' ']) = "Hello" := rfl
  rw [h1, h2, h3, h4]
  norm_num

/-- A poll that re-observes the stored identity does not fetch. -/
theorem fetchStep_same_id (st : WorkerState) (sess : Session)
    (raw : Option String) (hid : songId sess = st.last_id) :
    fetchStep st sess raw = (st, []) := by
  unfold fetchStep
  rw [if_neg (by simp [hid])]

/-- Claim C3 amended: a poll triggers a lyrics fetch exactly when the combined
identity string `title + "-" + artist` of line 78 differs from the stored
previous identity and no fetch is in flight; observing the same
`(artist, title)` twice in a row therefore never triggers a second fetch, but
because the combination is not injective, two different `(artist, title)`
pairs whose combined strings collide do not trigger one either. -/
theorem fetch_trigger_iff (st : WorkerState) (sess : Session)
    (raw raw2 : Option String) :
    ((fetchStep st sess raw).2 ≠ [] ↔
      songId sess ≠ st.last_id ∧ st.is_fetching = false) ∧
    (songId sess = st.last_id → fetchStep st sess raw = (st, [])) ∧
    (fetchStep (fetchStep st sess raw).1 sess raw2).2 = [] := by
  refine ⟨?_, ?_, ?_⟩
  · unfold fetchStep
    by_cases hc : songId sess ≠ st.last_id ∧ st.is_fetching = false
    · rw [if_pos hc]
      simpa using hc
    · rw [if_neg hc]
      simpa using hc
  · exact fetchStep_same_id st sess raw
  · unfold fetchStep
    by_cases hc : songId sess ≠ st.last_id ∧ st.is_fetching = false
    · rw [if_pos hc]
      simp
    · rw [if_neg hc, if_neg hc]

/-- Claim C3 amended, witness: re-observing the identity already stored
triggers nothing. -/
theorem fetch_trigger_iff_witness :
    fetchStep ⟨"t-a", [], [], "", false⟩ ⟨"spotify", "t", "a", "", 0, 0, 0, 0⟩
      none = (⟨"t-a", [], [], "", false⟩, []) :=
  (fetch_trigger_iff ⟨"t-a", [], [], "", false⟩
    ⟨"spotify", "t", "a", "", 0, 0, 0, 0⟩ none none).2.1 (by decide)

/-- Claim C3 counterexample: the tracks `(artist "c", title "a-b")` and
`(artist "b-c", title "a")` are different `(artist, title)` pairs, yet after
observing the first (which fetches), observing the second - with no fetch in
flight - triggers no fetch at all: both combine to the identity string
"a-b-c". -/
theorem track_change_collision_counterexample :
    ((("c" : String), ("a-b" : String)) ≠ (("b-c" : String), ("a" : String))) ∧
    (tick initState
        ⟨some ⟨"spotify", "a-b", "c", "", 0, 0, 0, 0⟩, 0, none⟩).2 =
      ["Searching..."] ∧
    (tick initState
        ⟨some ⟨"spotify", "a-b", "c", "", 0, 0, 0, 0⟩, 0, none⟩).1.is_fetching
      = false ∧
    (tick (tick initState
        ⟨some ⟨"spotify", "a-b", "c", "", 0, 0, 0, 0⟩, 0, none⟩).1
        ⟨some ⟨"spotify", "a", "b-c", "", 0, 0, 0, 0⟩, 0, none⟩).2 = [] := by
  refine ⟨by decide, ?_, ?_, ?_⟩ <;> rfl

/-- Claim C4: when the transport state is playing, the position the check of
lines 88-96 feeds to the active-line lookup is exactly the last snapshot
position plus the wall-clock time elapsed since the snapshot was captured:
the check equals the change-gated emission of the lookup at
`estimatedPosition`, and a snapshot of 30.0 s read 2.0 s later is looked up
at 32.0 s. -/
theorem positionCheck_interpolates (st : WorkerState) (sess : Session)
    (now : ℚ) (h : sess.playback_status = 4) :
    (positionCheck st sess now =
      (let l := lookupLyric st.parsed_lyrics st.ts_list
          (estimatedPosition sess.position sess.last_updated_time now)
       if l ≠ st.curr_text then ({ st with curr_text := l }, [l])
       else (st, []))) ∧
    estimatedPosition sess.position sess.last_updated_time now =
      sess.position + (now - sess.last_updated_time) ∧
    (∀ t0 : ℚ, estimatedPosition 30 t0 (t0 + 2) = 32) := by
  refine ⟨?_, rfl, ?_⟩
  · unfold positionCheck
    rw [if_pos h]
    rfl
  · intro t0
    unfold estimatedPosition
    ring

/-- Claim C4 witness: the concrete 30 s snapshot read 2 s later. -/
theorem positionCheck_interpolates_witness :
    estimatedPosition 30 5 (5 + 2) = 32 :=
  (positionCheck_interpolates initState
    ⟨"spotify", "t", "a", "", 0, 30, 5, 4⟩ 7 rfl).2.2 5

/-- Claim C5: every failing fetch outcome - the request raising (network
error or timeout), a non-200 status, or a missing or empty `syncedLyrics`
field - makes `fetch_lyrics` return the failure value `None` to its caller,
no exception escaping (the bare `except` of line 34 absorbs the raising
cases and the remaining cases fall through to `return None`), the cache
untouched; and a poll whose fetch returns `None` installs the empty document
and empty index for the new track, tracking continuing. -/
theorem fetch_failure_absorbed (cache : Cache) (artist title : String)
    (net : NetOutcome)
    (hmiss : lookupCache cache (cacheFilename artist title) = none)
    (hfail : FetchFailure net) :
    fetch_lyrics cache artist title net = (none, cache) ∧
    ∀ (st : WorkerState) (sess : Session),
      songId sess ≠ st.last_id → st.is_fetching = false →
      (fetchStep st sess none).1.parsed_lyrics = [] ∧
      (fetchStep st sess none).1.ts_list = [] ∧
      (fetchStep st sess none).1.last_id = songId sess := by
  constructor
  · unfold fetch_lyrics
    rw [hmiss]
    cases net with
    | raised => rfl
    | response status lyr =>
      rcases hfail with hs | hl | hl
      · simp [hs]
      · subst hl
        by_cases hs : status = 200 <;> simp [hs]
      · subst hl
        by_cases hs : status = 200 <;> simp [hs]
  · intro st sess hid hflag
    unfold fetchStep
    rw [if_pos ⟨hid, hflag⟩]
    exact ⟨rfl, rfl, rfl⟩

/-- Claim C5 witness: a raising request against an empty cache. -/
theorem fetch_failure_absorbed_witness :
    fetch_lyrics [] "a" "t" NetOutcome.raised = (none, []) :=
  (fetch_failure_absorbed [] "a" "t" NetOutcome.raised rfl trivial).1

/-- Claim C7: the cache check of lines 18-20 precedes and short-circuits the
remote lookup - a cached entry is returned as-is, whatever the network would
do - and after one successful fetch persisted the raw text verbatim
(line 31-32), any later resolve of the same `(artist, title)` returns the
byte-identical text from the cache with the result no longer depending on
the network outcome at all, i.e. with no network request issued. -/
theorem cache_round_trip (cache : Cache) (artist title lyr : String)
    (net : NetOutcome)
    (hmiss : lookupCache cache (cacheFilename artist title) = none)
    (hne : lyr ≠ "") :
    (∀ (c2 : Cache) (v : String) (n2 : NetOutcome),
      lookupCache c2 (cacheFilename artist title) = some v →
      fetch_lyrics c2 artist title n2 = (some v, c2)) ∧
    fetch_lyrics cache artist title (.response 200 (some lyr)) =
      (some lyr, (cacheFilename artist title, lyr) :: cache) ∧
    fetch_lyrics ((cacheFilename artist title, lyr) :: cache) artist title net =
      (some lyr, (cacheFilename artist title, lyr) :: cache) := by
  refine ⟨?_, ?_, ?_⟩
  · intro c2 v n2 hhit
    unfold fetch_lyrics
    rw [hhit]
  · unfold fetch_lyrics
    rw [hmiss]
    simp [hne]
  · unfold fetch_lyrics
    unfold lookupCache
    rw [if_pos rfl]

/-- Claim C7 witness: a concrete cached entry is served back unchanged on a
raising network. -/
theorem cache_round_trip_witness :
    fetch_lyrics [(cacheFilename "A B" "T", "x")] "A B" "T" NetOutcome.raised =
      (some "x", [(cacheFilename "A B" "T", "x")]) :=
  (cache_round_trip [] "A B" "T" "x" NetOutcome.raised rfl (by decide)).2.2

/-- Claim C9: in a Tracking poll whose transport state is not playing, the
position check of lines 88-96 emits nothing and leaves the whole state - the
displayed line, the loaded document and its index, the last resolved
identity - unchanged; if moreover the track identity of the poll is unchanged,
the entire Tracking iteration is a no-op. -/
theorem positionCheck_not_playing (st : WorkerState) (sess : Session)
    (now : ℚ) (h : sess.playback_status ≠ 4) :
    positionCheck st sess now = (st, []) ∧
    (∀ inp : TickInput, inp.session = some sess → inp.now = now →
      hasSubstr (pyLower sess.source_app_user_model_id).data "spotify".data
        = true →
      songId sess = st.last_id →
      tick st inp = (st, [])) := by
  have hpc : positionCheck st sess now = (st, []) := by
    unfold positionCheck
    rw [if_neg h]
  refine ⟨hpc, ?_⟩
  intro inp hsess hnow hspot hid
  unfold tick
  rw [hsess]
  simp only [hspot, Bool.true_eq_false, if_neg, if_false]
  have hfs : fetchStep st sess inp.fetchResult = (st, []) :=
    fetchStep_same_id st sess inp.fetchResult hid
  rw [hfs, hnow, hpc]
  rfl

/-- Claim C9 witness: a paused session leaves the initial state untouched. -/
theorem positionCheck_not_playing_witness :
    positionCheck initState ⟨"spotify", "t", "a", "", 0, 0, 0, 0⟩ 0 =
      (initState, []) :=
  (positionCheck_not_playing initState ⟨"spotify", "t", "a", "", 0, 0, 0, 0⟩ 0
    (by decide)).1

/-- The position check either does nothing or emits exactly its new line,
gated on differing from the displayed text. -/
theorem positionCheck_cases (st : WorkerState) (sess : Session) (now : ℚ) :
    positionCheck st sess now = (st, []) ∨
    ∃ l, positionCheck st sess now = ({ st with curr_text := l }, [l]) ∧
      l ≠ st.curr_text := by
  unfold positionCheck
  by_cases h4 : sess.playback_status = 4
  · rw [if_pos h4]
    by_cases hg :
        (if 0 < bisect_right st.ts_list
            (sess.position + (now - sess.last_updated_time)) then
          (st.parsed_lyrics.getD
            (bisect_right st.ts_list
              (sess.position + (now - sess.last_updated_time)) - 1) (0, "")).2
        else "...") ≠ st.curr_text
    · right
      exact ⟨_, by rw [if_pos hg], hg⟩
    · left
      rw [if_neg hg]
  · left
    rw [if_neg h4]

/-- The fetch step either does nothing or emits exactly the unconditional
"Searching..." placeholder and blanks the displayed text. -/
theorem fetchStep_cases (st : WorkerState) (sess : Session)
    (raw : Option String) :
    fetchStep st sess raw = (st, []) ∨
    ((fetchStep st sess raw).2 = ["Searching..."] ∧
      (fetchStep st sess raw).1.curr_text = "") := by
  unfold fetchStep
  by_cases hc : songId sess ≠ st.last_id ∧ st.is_fetching = false
  · rw [if_pos hc]
    exact Or.inr ⟨rfl, rfl⟩
  · rw [if_neg hc]
    exact Or.inl rfl

/-- Claim C6 amended: within one poll, every emission site except the
"Searching..." placeholder of line 82 is change-gated - it emits only a text
that differs from the displayed text it is compared against, and that text
becomes the new displayed text - while "Searching..." is emitted
unconditionally on every track change; the emissions of an iteration therefore
take one of the four shapes below, and consecutive equal notifications are
possible, but only through the unconditional "Searching..." site. -/
theorem tick_emissions_shape (st : WorkerState) (inp : TickInput) :
    (tick st inp).2 = [] ∨
    ((tick st inp).2 = [(tick st inp).1.curr_text] ∧
      (tick st inp).1.curr_text ≠ st.curr_text) ∨
    ((tick st inp).2 = ["Searching..."] ∧ (tick st inp).1.curr_text = "") ∨
    (∃ l, (tick st inp).2 = ["Searching...", l] ∧ l ≠ "" ∧
      (tick st inp).1.curr_text = l) := by
  unfold tick
  cases hsess : inp.session with
  | none =>
    dsimp only
    by_cases hw : st.curr_text ≠ "Waiting for Spotify..."
    · rw [if_pos hw]
      exact Or.inr (Or.inl ⟨rfl, Ne.symm hw⟩)
    · rw [if_neg hw]
      exact Or.inl rfl
  | some sess =>
    dsimp only
    by_cases hsp :
        hasSubstr (pyLower sess.source_app_user_model_id).data
          "spotify".data = false
    · rw [if_pos hsp]
      by_cases hns : st.curr_text ≠ "Not Spotify"
      · rw [if_pos hns]
        exact Or.inr (Or.inl ⟨rfl, Ne.symm hns⟩)
      · rw [if_neg hns]
        exact Or.inl rfl
    · rw [if_neg hsp]
      rcases fetchStep_cases st sess inp.fetchResult with hf | ⟨hf2, hfc⟩
      · rw [hf]
        rcases positionCheck_cases st sess inp.now with hp | ⟨l, hp, hl⟩
        · rw [hp]
          exact Or.inl rfl
        · rw [hp]
          exact Or.inr (Or.inl ⟨rfl, hl⟩)
      · rcases positionCheck_cases (fetchStep st sess inp.fetchResult).1 sess
            inp.now with hp | ⟨l, hp, hl⟩
        · rw [hp]
          rw [hf2]
          refine Or.inr (Or.inr (Or.inl ⟨by simp, ?_⟩))
          exact hfc
        · rw [hp]
          rw [hf2]
          refine Or.inr (Or.inr (Or.inr ⟨l, by simp, ?_, rfl⟩))
          rw [hfc] at hl
          exact hl

/-- Claim C6 amended, witness: the first poll with no session emits the
waiting placeholder once, change-gated. -/
theorem tick_emissions_shape_witness :
    (tick initState ⟨none, 0, none⟩).2 = [] ∨
    ((tick initState ⟨none, 0, none⟩).2 =
        [(tick initState ⟨none, 0, none⟩).1.curr_text] ∧
      (tick initState ⟨none, 0, none⟩).1.curr_text ≠ initState.curr_text) ∨
    ((tick initState ⟨none, 0, none⟩).2 = ["Searching..."] ∧
      (tick initState ⟨none, 0, none⟩).1.curr_text = "") ∨
    (∃ l, (tick initState ⟨none, 0, none⟩).2 = ["Searching...", l] ∧
      l ≠ "" ∧ (tick initState ⟨none, 0, none⟩).1.curr_text = l) :=
  tick_emissions_shape initState ⟨none, 0, none⟩

/-- Claim C6 counterexample: two consecutive polls that each see a new track
with a paused transport emit "Searching..." twice in a row - equal texts in
consecutive notifications, the second emitted although the first had just
been displayed, because the "Searching..." site is not change-gated. -/
theorem searching_repeat_counterexample :
    (tick initState
        ⟨some ⟨"spotify", "A", "X", "", 0, 0, 0, 0⟩, 0, none⟩).2 =
      ["Searching..."] ∧
    (tick (tick initState
        ⟨some ⟨"spotify", "A", "X", "", 0, 0, 0, 0⟩, 0, none⟩).1
        ⟨some ⟨"spotify", "B", "X", "", 0, 0, 0, 0⟩, 0, none⟩).2 =
      ["Searching..."] := by
  exact ⟨rfl, rfl⟩

/-- The combined identity `title + "-" + artist` is never the empty string,
which is the value `last_id` is reset to. -/
theorem songId_ne_empty (s : Session) : songId s ≠ "" := by
  intro h
  have hlen : s.title.length + "-".length + s.artist.length = "".length := by
    rw [← String.length_append, ← String.length_append]
    exact congrArg String.length h
  have h1 : "-".length = 1 := rfl
  have h0 : "".length = 0 := rfl
  omega

/-- The position check only ever touches the displayed text. -/
theorem positionCheck_frame (st : WorkerState) (sess : Session) (now : ℚ) :
    (positionCheck st sess now).1.ts_list = st.ts_list ∧
    (positionCheck st sess now).1.parsed_lyrics = st.parsed_lyrics ∧
    (positionCheck st sess now).1.last_id = st.last_id ∧
    (positionCheck st sess now).1.is_fetching = st.is_fetching := by
  rcases positionCheck_cases st sess now with hp | ⟨l, hp, _⟩ <;> rw [hp] <;>
    exact ⟨rfl, rfl, rfl, rfl⟩

/-- After the fetch step of a Tracking poll the index is always the timestamp
column of the installed document: either the fetch fired and reinstalled
both, or the identity is unchanged - and since identities are nonempty while
the desynchronising branches reset `last_id` to the empty string, the state
was still coherent. -/
theorem fetchStep_coherent (st : WorkerState) (sess : Session)
    (raw : Option String) (hflag : st.is_fetching = false)
    (hinv : st.ts_list = st.parsed_lyrics.map Prod.fst ∨
      (st.last_id = "" ∧ st.parsed_lyrics = [])) :
    (fetchStep st sess raw).1.is_fetching = false ∧
    (fetchStep st sess raw).1.ts_list =
      (fetchStep st sess raw).1.parsed_lyrics.map Prod.fst := by
  by_cases hc : songId sess ≠ st.last_id ∧ st.is_fetching = false
  · unfold fetchStep
    rw [if_pos hc]
    exact ⟨rfl, rfl⟩
  · have hid : songId sess = st.last_id := by
      rcases not_and_or.mp hc with h | h
      · exact not_not.mp h
      · exact absurd hflag h
    rw [fetchStep_same_id st sess raw hid]
    refine ⟨hflag, ?_⟩
    rcases hinv with h | ⟨hempty, _⟩
    · exact h
    · exact absurd (hid.trans hempty) (songId_ne_empty sess)

/-- Loop invariant: when an iteration starts, no fetch is marked in flight,
and the timestamp index either is the timestamp column of the document or
was cleared together with the identity (the wrong-player branch). -/
theorem reachable_invariant (st : WorkerState) (h : Reachable st) :
    st.is_fetching = false ∧
    (st.ts_list = st.parsed_lyrics.map Prod.fst ∨
      (st.last_id = "" ∧ st.parsed_lyrics = [])) := by
  induction h with
  | init => exact ⟨rfl, Or.inl rfl⟩
  | step st1 inp hr ih =>
    obtain ⟨ihf, ihinv⟩ := ih
    unfold tick
    cases hsess : inp.session with
    | none =>
      dsimp only
      exact ⟨ihf, Or.inl rfl⟩
    | some sess =>
      dsimp only
      by_cases hsp :
          hasSubstr (pyLower sess.source_app_user_model_id).data
            "spotify".data = false
      · rw [if_pos hsp]
        exact ⟨ihf, Or.inr ⟨rfl, rfl⟩⟩
      · rw [if_neg hsp]
        have hco := fetchStep_coherent st1 sess inp.fetchResult ihf ihinv
        have hfr := positionCheck_frame (fetchStep st1 sess inp.fetchResult).1
          sess inp.now
        refine ⟨?_, Or.inl ?_⟩
        · rw [hfr.2.2.2]
          exact hco.1
        · rw [hfr.1, hfr.2.1]
          exact hco.2

/-- The binary search never returns past the upper end of its range. -/
theorem bisectRightAux_le (a : List ℚ) (x : ℚ) :
    ∀ n lo hi, hi - lo ≤ n → lo ≤ hi → bisectRightAux a x lo hi ≤ hi := by
  intro n
  induction n with
  | zero =>
    intro lo hi hn hlh
    have heq : lo = hi := by omega
    subst heq
    rw [bisectRightAux_step]
    simp
  | succ n ih =>
    intro lo hi hn hlh
    rw [bisectRightAux_step]
    by_cases h : lo < hi
    · rw [if_pos h]
      by_cases hx : x < a.getD ((lo + hi) / 2) 0
      · rw [if_pos hx]
        exact le_trans (ih lo ((lo + hi) / 2) (by omega) (by omega)) (by omega)
      · rw [if_neg hx]
        exact ih ((lo + hi) / 2 + 1) hi (by omega) (by omega)
    · rw [if_neg h]
      omega

/-- The insertion point never exceeds the list length. -/
theorem bisect_right_le_length (a : List ℚ) (x : ℚ) :
    bisect_right a x ≤ a.length :=
  bisectRightAux_le a x a.length 0 a.length (by omega) (by omega)

/-- Claim C10: from every reachable loop state, whatever the session and fetch
result of this Tracking poll are, once the fetch step has run, `ts_list` is
exactly the ordered timestamp column of the installed `parsed_lyrics`, so
the bisect of line 92 searches an index coherent with the document and its
insertion point stays within the document (the subscript of line 93 is in
range whenever it is taken): the wrong-player branch clears the document
without clearing the index, but it also clears the identity, and the
always-nonempty identity of the next Tracking poll then forces a fetch that
reinstalls both before any lookup. -/
theorem ts_list_coherent (st : WorkerState) (h : Reachable st)
    (sess : Session) (raw : Option String) :
    (fetchStep st sess raw).1.ts_list =
      (fetchStep st sess raw).1.parsed_lyrics.map Prod.fst ∧
    ∀ pos : ℚ, bisect_right (fetchStep st sess raw).1.ts_list pos ≤
      (fetchStep st sess raw).1.parsed_lyrics.length := by
  obtain ⟨hfl, hinv⟩ := reachable_invariant st h
  have hco := fetchStep_coherent st sess raw hfl hinv
  refine ⟨hco.2, fun pos => ?_⟩
  rw [hco.2]
  have hle := bisect_right_le_length
    ((fetchStep st sess raw).1.parsed_lyrics.map Prod.fst) pos
  rw [List.length_map] at hle
  exact hle

/-- Claim C10 witness: the very first Tracking poll. -/
theorem ts_list_coherent_witness :
    (fetchStep initState ⟨"spotify", "t", "a", "", 0, 0, 0, 0⟩ none).1.ts_list =
      (fetchStep initState
        ⟨"spotify", "t", "a", "", 0, 0, 0, 0⟩ none).1.parsed_lyrics.map
        Prod.fst :=
  (ts_list_coherent initState Reachable.init
    ⟨"spotify", "t", "a", "", 0, 0, 0, 0⟩ none).1

end SpotifySync
